import Mathlib

/-!
Verification development for the version-compatibility and API-lifecycle
resolution engine of this repository: the per-component effective-version
state (component-base compatibility package), the component-globals
registry with its version-mapping graph, and the lifecycle resolver that
decides resource serving and storage-encoding selection.

The Go `*version.Version` pointer is modelled as `Option KVersion`: `none`
is the nil pointer.  The `Version` value type itself (major.minor.patch
with total order by components, the comparison methods being nil-safe) is
the external primitive of the spec, not part of the sources, so its
operations are modelled from the spec.  Mutable state (atomic pointers in
Go) is modelled by explicit state passing; a Go panic or returned error is
modelled with `Except`.
-/

/-- Modelled from the spec: the external `Version` primitive, an immutable
major.minor(.patch) value with total order by (major, minor, patch);
prerelease tags are informational only for this engine and carry no weight
in any comparison, so they are not modelled. -/
structure KVersion where
  major : Nat
  minor : Nat
  patch : Nat
deriving DecidableEq, Repr

/-- Strict comparison of two present versions, lexicographic on
(major, minor, patch) per the spec order of the Version primitive. -/
def kLtB (a b : KVersion) : Bool :=
  (a.major < b.major)
    || (a.major == b.major
        && ((a.minor < b.minor) || (a.minor == b.minor && a.patch < b.patch)))

/-- Modelled from the spec: nil-safe `LessThan` of the Version primitive.
A nil receiver or argument never compares less. -/
def vLessThan : Option KVersion → Option KVersion → Bool
  | some a, some b => kLtB a b
  | _, _ => false

/-- Modelled from the spec: nil-safe `GreaterThan` of the Version
primitive.  A nil receiver or argument never compares greater. -/
def vGreaterThan : Option KVersion → Option KVersion → Bool
  | some a, some b => kLtB b a
  | _, _ => false

/-- Modelled from the spec: `MajorMinor(a, b)`, the normalized value with
patch zero. -/
def kMajorMinor (a b : Nat) : KVersion :=
  { major := a, minor := b, patch := 0 }

/-- The nil-passing `majorMinor` helper of the effective-version source:
drops the patch (and prerelease) of a present version, passes nil
through. -/
def majorMinor : Option KVersion → Option KVersion
  | none => none
  | some v => some (kMajorMinor v.major v.minor)

/-- Modelled from the spec: `SubtractMinor(n)` of the Version primitive,
minor reduced by `n` (floored at zero by unsigned arithmetic), same major
and patch. -/
def kSubtractMinor (v : KVersion) (n : Nat) : KVersion :=
  { major := v.major, minor := v.minor - n, patch := v.patch }

/-- Nil-safe `SubtractMinor`: nil passes through. -/
def optSubtractMinor (v : Option KVersion) (n : Nat) : Option KVersion :=
  v.map (fun w => kSubtractMinor w n)

/-- Modelled from the spec: nil-safe `WithPatch(0)` of the Version
primitive; nil passes through. -/
def optWithPatch0 : Option KVersion → Option KVersion
  | none => none
  | some v => some { major := v.major, minor := v.minor, patch := 0 }

/-- Splits a character list at every dot, keeping empty segments. -/
def splitDots : List Char → List (List Char)
  | [] => [[]]
  | c :: rest =>
    let r := splitDots rest
    if c = '.' then [] :: r
    else
      match r with
      | h :: t => (c :: h) :: t
      | [] => [[c]]

/-- Reads a nonempty all-digit character list as a number. -/
def charsToNat : List Char → Option Nat
  | [] => none
  | cs =>
    cs.foldl
      (fun acc c =>
        match acc with
        | some n => if c.isDigit then some (n * 10 + (c.toNat - 48)) else none
        | none => none)
      (some 0)

/-- Modelled from the spec: the version-string parser of the Version
primitive accepts an optional leading letter v and two (major.minor) or
three (major.minor.patch) dot-separated numeric components; anything else
fails to parse.  The strings exercised by the claims are of exactly these
shapes. -/
def parseVersion (s : String) : Option KVersion :=
  let cs :=
    match s.toList with
    | 'v' :: rest => rest
    | cs => cs
  match (splitDots cs).mapM charsToNat with
  | some [ma, mi] => some { major := ma, minor := mi, patch := 0 }
  | some [ma, mi, pa] => some { major := ma, minor := mi, patch := pa }
  | _ => none

/-- The per-component effective-version state of the compatibility
package: three version slots (nil when unset) and two floor bounds (nil
means no limit).  Atomic pointers of the source are modelled as plain
fields with explicit state passing. -/
structure EffectiveVersion where
  binaryVersion : Option KVersion := none
  emulationVersion : Option KVersion := none
  minCompatibilityVersion : Option KVersion := none
  emulationVersionFloor : Option KVersion := none
  minCompatibilityVersionFloor : Option KVersion := none
deriving DecidableEq, Repr

/-- Embeds `effectiveVersion.Set` of the compatibility package: stores the
binary version untouched and the other two normalized to major.minor. -/
def EffectiveVersion.set (m : EffectiveVersion)
    (b e c : Option KVersion) : EffectiveVersion :=
  { m with
    binaryVersion := b
    emulationVersion := majorMinor e
    minCompatibilityVersion := majorMinor c }

/-- Embeds `effectiveVersion.SetEmulationVersion` of the compatibility
package: stores the normalized emulation version and, as a side effect,
stores the default min-compatibility version, one minor below, clamped
up to the min-compatibility floor when that floor is higher. -/
def EffectiveVersion.setEmulationVersion (m : EffectiveVersion)
    (e : Option KVersion) : EffectiveVersion :=
  let mc0 := majorMinor (optSubtractMinor e 1)
  let mc :=
    if vLessThan mc0 m.minCompatibilityVersionFloor then
      m.minCompatibilityVersionFloor
    else mc0
  { m with emulationVersion := majorMinor e, minCompatibilityVersion := mc }

/-- Embeds `effectiveVersion.SetMinCompatibilityVersion`. -/
def EffectiveVersion.setMinCompatibilityVersion (m : EffectiveVersion)
    (c : Option KVersion) : EffectiveVersion :=
  { m with minCompatibilityVersion := majorMinor c }

/-- Error text of the emulation-version range check of `Validate`. -/
def emulationRangeErr : String :=
  "emulation version is not between emulationVersionFloor and binaryVersion"

/-- Error text of the min-compatibility range check of `Validate`. -/
def minCompatibilityRangeErr : String :=
  "minCompatibilityVersion version is not between minCompatibilityVersionFloor and emulationVersion"

/-- Embeds `effectiveVersion.Validate` of the compatibility package: the
emulation version must not exceed the patch-zeroed binary version nor fall
below the emulation floor, and the min-compatibility version must not
exceed the emulation version nor fall below its floor; each violated check
appends one error.  It only reads the state. -/
def EffectiveVersion.validate (m : EffectiveVersion) : List String :=
  let b := optWithPatch0 m.binaryVersion
  let e := m.emulationVersion
  let c := m.minCompatibilityVersion
  (if vGreaterThan e b || vLessThan e m.emulationVersionFloor then
    [emulationRangeErr] else [])
  ++ (if vGreaterThan c e || vLessThan c m.minCompatibilityVersionFloor then
    [minCompatibilityRangeErr] else [])

/-- Embeds `effectiveVersion.WithEmulationVersionFloor`. -/
def EffectiveVersion.withEmulationVersionFloor (m : EffectiveVersion)
    (f : Option KVersion) : EffectiveVersion :=
  { m with emulationVersionFloor := f }

/-- Panic text of `WithMinCompatibilityVersionFloor`. -/
def floorOrderingPanicMsg : String :=
  "minCompatibilityVersionFloor must be less than or equal to emulationVersionFloor"

/-- Embeds `effectiveVersion.WithMinCompatibilityVersionFloor` of the
compatibility package: a floor strictly above the emulation floor panics
(modelled as an error) before anything is stored. -/
def EffectiveVersion.withMinCompatibilityVersionFloor (m : EffectiveVersion)
    (f : Option KVersion) : Except String EffectiveVersion :=
  if vGreaterThan f m.emulationVersionFloor then
    .error floorOrderingPanicMsg
  else
    .ok { m with minCompatibilityVersionFloor := f }

/-- Embeds `NewEffectiveVersion` of the compatibility package: floors at
0.0, then `Set(binary, binary, binary minus one minor)`. -/
def newEffectiveVersion (b : KVersion) : EffectiveVersion :=
  EffectiveVersion.set
    { emulationVersionFloor := some (kMajorMinor 0 0)
      minCompatibilityVersionFloor := some (kMajorMinor 0 0) }
    (some b) (some b) (some (kSubtractMinor b 1))

/-- Embeds `NewEffectiveVersionFromString`: the empty string yields the
all-unset state; otherwise the string must parse (the source panics on a
parse failure, modelled as `none`). -/
def newEffectiveVersionFromString (s : String) : Option EffectiveVersion :=
  if s = "" then some {} else (parseVersion s).map newEffectiveVersion

/-- A version-mapping edge function (`VersionMapping` in the registry
source): derives the target component version from the source component
version; `none` models the Go function returning nil. -/
def VersionMapping := KVersion → Option KVersion

/-- The component-globals registry state of part_001, restricted to the
fields its `Set` actually consults: registered components with their
effective versions, the operator-supplied emulation-version configuration,
the emulation-version mapping graph, and the set of components whose
emulation version is derived through a mapping.  The feature-gate handles
and the min-compatibility mapping graph (declared but never read by `Set`
in this source) are external collaborators per the spec and are not
modelled; Go maps are modelled as association lists. -/
structure Registry where
  componentGlobals : List (String × EffectiveVersion)
  emulationVersionConfig : List (String × String)
  emulationVersionMapping : List (String × List (String × VersionMapping))
  componentsWithDependentEmulationVersion : List String

/-- The effective version registered under a component, `none` when the
component is not registered (`EffectiveVersionFor`). -/
def Registry.effectiveVersionFor (r : Registry) (comp : String) :
    Option EffectiveVersion :=
  (r.componentGlobals.find? (fun p => p.1 == comp)).map Prod.snd

/-- A queue entry of `getFullVersionConfig` (`componentVersion` in the
source). -/
structure ComponentVersion where
  component : String
  ver : KVersion

/-- The first loop of `getFullVersionConfig`: walks the configuration,
rejecting unregistered components, unparsable version strings and versions
with a nonzero patch component, and seeds the work queue. -/
def buildSetQueue (r : Registry) :
    List (String × String) → Except String (List ComponentVersion)
  | [] => .ok []
  | (comp, verStr) :: rest =>
    if (r.componentGlobals.find? (fun p => p.1 == comp)).isNone then
      .error ("component not registered: " ++ comp)
    else
      match parseVersion verStr with
      | none => .error ("illegal version string: " ++ verStr)
      | some ver =>
        if ver.patch != 0 then
          .error ("patch version not allowed, got: " ++ verStr)
        else
          (buildSetQueue r rest).map (fun q => ⟨comp, ver⟩ :: q)

/-- The outgoing-edge step of the `getFullVersionConfig` loop: applies
every mapping function out of the popped component, rejecting a nil
result, and yields the queue entries to push. -/
def pushTargets (cv : ComponentVersion) :
    List (String × VersionMapping) → Except String (List ComponentVersion)
  | [] => .ok []
  | (toComp, f) :: rest =>
    match f cv.ver with
    | none =>
      .error ("got nil version from mapping of " ++ cv.component
        ++ " to component " ++ toComp)
    | some toVer =>
      (pushTargets cv rest).map (fun l => ⟨toComp, toVer⟩ :: l)

/-- The work-queue loop of `getFullVersionConfig`: pops an entry, rejects
a component already assigned in this pass (a mapping cycle or two
disagreeing sources), records the assignment and pushes every outgoing
mapping edge.  The fuel argument only bounds the recursion: each loop
iteration consumes one queued entry, at most the initial queue plus one
entry per mapping edge is ever enqueued (an edge fires only when its
source is assigned, which happens at most once), so the fuel chosen by
`getFullVersionConfig` is never exhausted. -/
def resolveQueue
    (mapping : List (String × List (String × VersionMapping))) :
    Nat → List (String × KVersion) → List ComponentVersion →
    Except String (List (String × KVersion))
  | _, result, [] => .ok result
  | 0, _, _ :: _ => .error "resolution fuel exhausted"
  | fuel + 1, result, cv :: rest =>
    if (result.find? (fun p => p.1 == cv.component)).isSome then
      .error ("setting version of " ++ cv.component
        ++ " more than once, probably version mapping loop")
    else
      let outEdges :=
        ((mapping.find? (fun p => p.1 == cv.component)).map Prod.snd).getD []
      match pushTargets cv outEdges with
      | .error e => .error e
      | .ok pushes =>
        resolveQueue mapping fuel
          (result ++ [(cv.component, cv.ver)]) (rest ++ pushes)

/-- Number of edges of the mapping graph. -/
def edgeCount
    (mapping : List (String × List (String × VersionMapping))) : Nat :=
  (mapping.map (fun p => p.2.length)).sum

/-- Embeds `getFullVersionConfig` of the registry source: expands the
given version configuration with the registered version mappings into the
full component-to-version assignment, or fails. -/
def getFullVersionConfig (r : Registry)
    (config : List (String × String))
    (mapping : List (String × List (String × VersionMapping))) :
    Except String (List (String × KVersion)) :=
  match buildSetQueue r config with
  | .error e => .error e
  | .ok q => resolveQueue mapping (q.length + edgeCount mapping + 1) [] q

/-- The pre-check of `Set`: the first configured component that has an
incoming mapping edge, if any (only components without a dependency can
be set from the flag). -/
def findDependentConfigured (deps : List String) :
    List (String × String) → Option String
  | [] => none
  | (comp, _) :: rest =>
    if deps.contains comp then some comp else findDependentConfigured deps rest

/-- The application loop of `Set`: calls `SetEmulationVersion` on the
effective version registered under each assigned component. -/
def applyEmulationVersions (gs : List (String × EffectiveVersion))
    (asg : List (String × KVersion)) : List (String × EffectiveVersion) :=
  asg.foldl
    (fun acc cv =>
      acc.map (fun p =>
        if p.1 == cv.1 then (p.1, p.2.setEmulationVersion (some cv.2)) else p))
    gs

/-- Embeds the emulation-version resolution phase of `Set` of the registry
source (part_001 lines 312 to 327), returning the registry state at exit
together with the error if one occurred: first every directly-configured
component is rejected if its emulation version is mapping-derived, then
the full assignment is resolved, and only when resolution succeeded is
`SetEmulationVersion` applied to the registered components.  The
subsequent feature-gate phases of `Set` act on the external feature-gate
collaborator and are outside this model. -/
def registrySetEmulation (r : Registry) : Registry × Option String :=
  match findDependentConfigured
      r.componentsWithDependentEmulationVersion r.emulationVersionConfig with
  | some comp =>
    (r, some ("EmulationVersion of " ++ comp
      ++ " is set by mapping, cannot set it by flag"))
  | none =>
    match getFullVersionConfig r
        r.emulationVersionConfig r.emulationVersionMapping with
    | .error e => (r, some e)
    | .ok asg =>
      ({ r with
          componentGlobals := applyEmulationVersions r.componentGlobals asg },
        none)

/-- Prints a version the way the Version primitive does: the stored
emulation versions are major.minor values, printed as two components. -/
def versionToString (v : KVersion) : String :=
  if v.patch = 0 then toString v.major ++ "." ++ toString v.minor
  else toString v.major ++ "." ++ toString v.minor ++ "." ++ toString v.patch

/-- Adds an edge to the mapping graph (the nested-map insert of
`SetEmulationVersionMapping`). -/
def addMappingEdge
    (mapping : List (String × List (String × VersionMapping)))
    (fromComp toComp : String) (f : VersionMapping) :
    List (String × List (String × VersionMapping)) :=
  if (mapping.find? (fun p => p.1 == fromComp)).isSome then
    mapping.map (fun p =>
      if p.1 == fromComp then (p.1, p.2 ++ [(toComp, f)]) else p)
  else
    mapping ++ [(fromComp, [(toComp, f)])]

/-- Embeds `SetEmulationVersionMapping` of the registry source: a nil
mapping function is a no-op; both endpoints must be registered; a target
that already has an incoming edge is rejected (single-dependency
invariant); then the edge is recorded and the current default emulation
version of the source component is immediately propagated through the
updated graph. -/
def setEmulationVersionMapping (r : Registry)
    (fromComp toComp : String) (f : Option VersionMapping) :
    Except String Registry :=
  match f with
  | none => .ok r
  | some fn =>
    if (r.componentGlobals.find? (fun p => p.1 == fromComp)).isNone then
      .error ("component not registered: " ++ fromComp)
    else if (r.componentGlobals.find? (fun p => p.1 == toComp)).isNone then
      .error ("component not registered: " ++ toComp)
    else if r.componentsWithDependentEmulationVersion.contains toComp then
      .error ("mapping of " ++ toComp ++ " already exists from another component")
    else
      let r1 := { r with
        componentsWithDependentEmulationVersion :=
          r.componentsWithDependentEmulationVersion ++ [toComp] }
      let existing :=
        ((r1.emulationVersionMapping.find? (fun p => p.1 == fromComp)).map
          Prod.snd).getD []
      if (existing.find? (fun p => p.1 == toComp)).isSome then
        .error ("EmulationVersion from " ++ fromComp ++ " to " ++ toComp
          ++ " already exists")
      else
        let r2 := { r1 with
          emulationVersionMapping :=
            addMappingEdge r1.emulationVersionMapping fromComp toComp fn }
        let defaultFromVersion :=
          match (r2.effectiveVersionFor fromComp).bind
              EffectiveVersion.emulationVersion with
          | some v => versionToString v
          | none => "<nil>"
        match getFullVersionConfig r2 [(fromComp, defaultFromVersion)]
            r2.emulationVersionMapping with
        | .error e => .error e
        | .ok asg =>
          .ok { r2 with
            componentGlobals := applyEmulationVersions r2.componentGlobals asg }

/-- An API lifecycle attached to a group-version or to a resource:
optional introduced and removed versions, absence meaning always
available respectively never removed. -/
structure APILifecycle where
  introduced : Option KVersion := none
  removed : Option KVersion := none
deriving DecidableEq, Repr

/-- Modelled from the spec and pinned by the in-src `TestApiAvailable`
rows (resource_config_test.go, the implementation `apiAvailable` of
resource_config.go is not under src/): availability of a lifecycle at an
emulation version.  An unspecified (0.0) emulation version is always
available; otherwise the version must be at or after the introduced
version and at or before the removed version, both bounds inclusive. -/
def apiAvailable (e : KVersion) (lc : APILifecycle) : Bool :=
  if e = kMajorMinor 0 0 then true
  else
    (match lc.introduced with
      | none => true
      | some i => !kLtB e i)
    && (match lc.removed with
      | none => true
      | some r => !kLtB r e)

/-- One entry of the prioritized-version list offered for storage
encoding: the version name with the lifecycle of the resource at that
version and the lifecycle of the group-version. -/
structure StorageVersionCandidate where
  name : String
  resourceLifecycle : APILifecycle
  groupLifecycle : APILifecycle
deriving DecidableEq, Repr

/-- Codability of a candidate version at one bound: the resource and its
group-version must both be available there. -/
def codableAt (c : StorageVersionCandidate) (v : KVersion) : Bool :=
  apiAvailable v c.resourceLifecycle && apiAvailable v c.groupLifecycle

/-- Codability of a candidate at both the emulation version and the min
compatibility version. -/
def codableBoth (c : StorageVersionCandidate) (e mc : KVersion) : Bool :=
  codableAt c e && codableAt c mc

/-- The failure text of storage-encoding selection. -/
def notCodableErr : String :=
  "resource not codable by both emulation version and min compatibility version"

/-- Modelled from the spec and pinned by the in-src
`TestStorageVersionEmulation` rows (the implementation
`StorageEncodingFor` of resource_encoding_config.go is not under src/):
scans the prioritized versions, most preferred first, and returns the
first one codable at both the emulation version and the min
compatibility version, failing when none is. -/
def storageEncodingFor (e mc : KVersion) :
    List StorageVersionCandidate → Except String String
  | [] => .error notCodableErr
  | c :: rest =>
    if codableBoth c e mc then .ok c.name else storageEncodingFor e mc rest

/-- The resource-expiration evaluator state (`resourceExpirationEvaluator`
of deleted_kinds.go, whose implementation is not under src/; the fields
are the ones its in-src tests construct).  `resourceConfigs` is the
explicit per-resource override table (`APIResourceConfigSource`), keyed
by (version, resource) within the group under evaluation. -/
structure ResourceExpirationEvaluator where
  currentVersion : KVersion
  isAlpha : Bool := false
  serveRemovedAPIsOneMoreRelease : Bool := false
  strictRemovedHandlingInAlpha : Bool := false
  emulationForwardCompatible : Bool := false
  resourceConfigs : List ((String × String) × Bool) := []

/-- Modelled from the spec (removal rule of `shouldServe`): a removed
lifecycle in the same major at or before the current minor expires the
resource, unless the one-more-release deferral applies exactly in the
removal release, or the build is alpha without strict removed handling; a
removal in a different major always expires it; a removal after the
current minor has not happened yet.  Matches every removal row of the
in-src `Test_resourceExpirationEvaluator_shouldServe`. -/
def shouldServeBasedOnRemoved (e : ResourceExpirationEvaluator)
    (removed : Option KVersion) : Bool :=
  match removed with
  | none => true
  | some r =>
    if r.major == e.currentVersion.major then
      if r.minor ≤ e.currentVersion.minor then
        (e.serveRemovedAPIsOneMoreRelease && r.minor == e.currentVersion.minor)
          || (e.isAlpha && !e.strictRemovedHandlingInAlpha)
      else true
    else false

/-- Modelled from the spec (introduction rule of `shouldServe`): a
resource introduced strictly after the current version is not yet
available; a missing introduced version means always available. -/
def shouldServeBasedOnIntroduced (e : ResourceExpirationEvaluator)
    (introduced : Option KVersion) : Bool :=
  match introduced with
  | none => true
  | some i => !kLtB e.currentVersion i

/-- Modelled from the spec: `shouldServe` of deleted_kinds.go, serving a
resource when it is both already introduced and not yet expired at the
current version. -/
def shouldServe (e : ResourceExpirationEvaluator) (lc : APILifecycle) : Bool :=
  shouldServeBasedOnIntroduced e lc.introduced
    && shouldServeBasedOnRemoved e lc.removed

/-- Embeds `shouldRemoveResourceAndSubresources` (pinned by the in-src
`Test_shouldRemoveResource`): a resource is removed when its name, or the
parent name of which it is a slash-separated subresource, is slated for
removal. -/
def shouldRemoveResourceAndSubresources (toRemove : List String)
    (name : String) : Bool :=
  toRemove.any (fun r =>
    name == r || List.isPrefixOf ((r ++ "/").toList) name.toList)

/-- The removed-kinds pass over the resources of one group-version:
resources whose removed lifecycle has expired, and their subresources,
are dropped (pinned by the in-src `Test_removeDeletedKinds`). -/
def removedPassVersion (e : ResourceExpirationEvaluator)
    (resources : List (String × APILifecycle)) :
    List (String × APILifecycle) :=
  let toRemove :=
    (resources.filter
      (fun p => !shouldServeBasedOnRemoved e p.2.removed)).map Prod.fst
  resources.filter (fun p => !shouldRemoveResourceAndSubresources toRemove p.1)

/-- The removed-kinds pass over the whole storage map. -/
def removedPass (e : ResourceExpirationEvaluator)
    (m : List (String × List (String × APILifecycle))) :
    List (String × List (String × APILifecycle)) :=
  m.map (fun p => (p.1, removedPassVersion e p.2))

/-- Looks up the explicit enable/disable override for a resource of a
version. -/
def lookupOverride (e : ResourceExpirationEvaluator) (ver name : String) :
    Option Bool :=
  (e.resourceConfigs.find? (fun q => q.1.1 == ver && q.1.2 == name)).map
    Prod.snd

/-- Decides the resources of one group-version in the unintroduced-kinds
pass, threading the set of resource names already served at some less
preferred version: an explicit override wins outright; otherwise an
already-introduced resource is kept and recorded as served; otherwise, in
emulation-forward-compatible mode, a not-yet-introduced resource is kept
when a less preferred version of the same resource is served.  Pinned by
the seven in-src `Test_removeFutureKinds` rows. -/
def introPassStep (e : ResourceExpirationEvaluator) (ver : String) :
    List String → List (String × APILifecycle) →
    List String × List (String × APILifecycle)
  | en, [] => (en, [])
  | en, p :: rest =>
    match lookupOverride e ver p.1 with
    | some true =>
      let r := introPassStep e ver (en ++ [p.1]) rest
      (r.1, p :: r.2)
    | some false => introPassStep e ver en rest
    | none =>
      if shouldServeBasedOnIntroduced e p.2.introduced then
        let r := introPassStep e ver (en ++ [p.1]) rest
        (r.1, p :: r.2)
      else if e.emulationForwardCompatible && en.contains p.1 then
        let r := introPassStep e ver en rest
        (r.1, p :: r.2)
      else introPassStep e ver en rest

/-- Runs the unintroduced-kinds pass over the versions in the given
order (least preferred first), threading the served-resources set. -/
def introPassGo (e : ResourceExpirationEvaluator) :
    List String → List String →
    List (String × List (String × APILifecycle)) →
    List (String × List (String × APILifecycle))
  | _, [], m => m
  | en, v :: rest, m =>
    match m.find? (fun p => p.1 == v) with
    | none => introPassGo e en rest m
    | some entry =>
      let r := introPassStep e v en entry.2
      introPassGo e r.1 rest
        (m.map (fun p => if p.1 == v then (p.1, r.2) else p))

/-- Drops group-versions left without any resource. -/
def dropEmptyVersions (m : List (String × List (String × APILifecycle))) :
    List (String × List (String × APILifecycle)) :=
  m.filter (fun p => !p.2.isEmpty)

/-- Modelled from the spec and pinned by the in-src
`Test_removeDeletedKinds` and `Test_removeFutureKinds`:
`RemoveDeletedKinds` prunes expired kinds, then prunes not-yet-introduced
kinds walking the prioritized versions from least preferred to most
preferred, then drops group-versions left empty.  `prioritized` is the
group's version list, most preferred first. -/
def removeDeletedKinds (e : ResourceExpirationEvaluator)
    (prioritized : List String)
    (m : List (String × List (String × APILifecycle))) :
    List (String × List (String × APILifecycle)) :=
  dropEmptyVersions (introPassGo e [] prioritized.reverse (removedPass e m))

/-- The default min-compatibility version the claim prescribes after
`SetEmulationVersion(v)`: the maximum of v minus one minor at major.minor
and the min-compatibility floor (a nil floor imposes no bound). -/
def specDefaultMinCompat (v : KVersion) (floor : Option KVersion) :
    Option KVersion :=
  match floor with
  | none => some (kMajorMinor v.major (v.minor - 1))
  | some f =>
    if kLtB (kMajorMinor v.major (v.minor - 1)) f then some f
    else some (kMajorMinor v.major (v.minor - 1))

/-- The removal rule in the claim language: a resource with a removed
lifecycle is still served precisely when the removal is in the same major
and after the current minor, or one of the two exceptions applies in the
same major. -/
def removalServedSpec (deferOne alpha strict : Bool) (r c : KVersion) : Prop :=
  r.major = c.major ∧
    (c.minor < r.minor
      ∨ (deferOne = true ∧ r.minor = c.minor)
      ∨ (alpha = true ∧ strict = false))

/-- A present version has patch zero (vacuous for nil). -/
def patchZeroOpt : Option KVersion → Prop
  | none => True
  | some f => f.patch = 0

/-- Comparison at major.minor, as the claim states it. -/
def mmLe (a b : KVersion) : Prop :=
  a.major < b.major ∨ (a.major = b.major ∧ a.minor ≤ b.minor)

/-- A floor bound at major.minor; a nil floor imposes no bound. -/
def floorLeMM : Option KVersion → KVersion → Prop
  | none, _ => True
  | some f, x => mmLe f x

/-- Error shape test for Except values. -/
def exceptIsError {α β : Type} : Except α β → Bool
  | .error _ => true
  | .ok _ => false

/-- A configuration entry the resolution rejects: its component is not
registered, or its version string does not parse, or it parses with a
nonzero patch component. -/
def configEntryRejected (r : Registry) (p : String × String) : Prop :=
  (r.componentGlobals.find? (fun q => q.1 == p.1)).isNone = true
    ∨ parseVersion p.2 = none
    ∨ (∃ v, parseVersion p.2 = some v ∧ v.patch ≠ 0)

/-- Shorthand lifecycle with only an introduced version. -/
def lcI (a b : Nat) : APILifecycle :=
  { introduced := some (kMajorMinor a b) }

/-- Shorthand lifecycle with introduced and removed versions. -/
def lcIR (a b c d : Nat) : APILifecycle :=
  { introduced := some (kMajorMinor a b), removed := some (kMajorMinor c d) }

/-- The storage map of the in-src `Test_removeFutureKinds` rows. -/
def futureMap : List (String × List (String × APILifecycle)) :=
  [("v1", [("resource1", lcI 1 20)]),
   ("v2beta1", [("resource1", lcIR 1 21 1 22)]),
   ("v2beta2", [("resource1", lcIR 1 22 1 23), ("resource2", lcIR 1 22 1 23)]),
   ("v2", [("resource1", lcI 1 23), ("resource2", lcI 1 23)])]

/-- The prioritized versions of the in-src `Test_removeFutureKinds` rows,
most preferred first. -/
def futurePriority : List String := ["v2", "v1", "v2beta2", "v2beta1"]

/-- A registry with a registered component alongside a mapping-dependent
component named directly in the configuration. -/
def regW : Registry :=
  { componentGlobals :=
      [("a", newEffectiveVersion (kMajorMinor 1 31)),
       ("b", newEffectiveVersion (kMajorMinor 1 31))],
    emulationVersionConfig := [("b", "1.30")],
    emulationVersionMapping := [],
    componentsWithDependentEmulationVersion := ["b"] }

/-- A registry whose configuration names an unregistered component. -/
def regErr : Registry :=
  { componentGlobals := [("a", newEffectiveVersion (kMajorMinor 1 31))],
    emulationVersionConfig := [("ghost", "1.30")],
    emulationVersionMapping := [],
    componentsWithDependentEmulationVersion := [] }

/-- A registry whose configuration carries a full semantic version string
with zero patch. -/
def regSemver : Registry :=
  { componentGlobals := [("kube", newEffectiveVersion (kMajorMinor 1 31))],
    emulationVersionConfig := [("kube", "1.30.0")],
    emulationVersionMapping := [],
    componentsWithDependentEmulationVersion := [] }

/-- A registry whose configuration carries a nonzero patch component. -/
def regBadCfg : Registry :=
  { componentGlobals := [("a", newEffectiveVersion (kMajorMinor 1 31))],
    emulationVersionConfig := [("a", "1.30.5")],
    emulationVersionMapping := [],
    componentsWithDependentEmulationVersion := [] }

/-- A registry with a self-loop mapping edge on a configured component. -/
def regLoop : Registry :=
  { componentGlobals := [("a", newEffectiveVersion (kMajorMinor 1 31))],
    emulationVersionConfig := [("a", "1.30")],
    emulationVersionMapping := [("a", [("a", fun w => some w)])],
    componentsWithDependentEmulationVersion := [] }

/-- Sanity: the parser on the shapes the claims exercise. -/
theorem parseVersion_rows :
    parseVersion "1.30.0" = some { major := 1, minor := 30, patch := 0 }
    ∧ parseVersion "v1.31" = some { major := 1, minor := 31, patch := 0 }
    ∧ parseVersion "1.30" = some (kMajorMinor 1 30)
    ∧ parseVersion "1.foo" = none := by
  refine ⟨by rfl, by rfl, by rfl, by rfl⟩

/-- Sanity: the constructor scenario of the spec, binary v1.30.2 giving
default emulation 1.30 and default min compatibility 1.29. -/
theorem newEffectiveVersion_defaults :
    (newEffectiveVersion { major := 1, minor := 30, patch := 2 }).emulationVersion
        = some (kMajorMinor 1 30)
    ∧ (newEffectiveVersion { major := 1, minor := 30, patch := 2 }).minCompatibilityVersion
        = some (kMajorMinor 1 29) := by
  refine ⟨by decide, by decide⟩

/-- Sanity: the model of `apiAvailable` reproduces all six rows of the
in-src `TestApiAvailable`. -/
theorem apiAvailable_test_rows :
    apiAvailable (kMajorMinor 0 0) (lcIR 1 27 1 30) = true
    ∧ apiAvailable (kMajorMinor 1 26) (lcIR 1 27 1 30) = false
    ∧ apiAvailable (kMajorMinor 1 27) (lcIR 1 27 1 30) = true
    ∧ apiAvailable (kMajorMinor 1 29) (lcIR 1 27 1 30) = true
    ∧ apiAvailable (kMajorMinor 1 30) (lcIR 1 27 1 30) = true
    ∧ apiAvailable (kMajorMinor 1 31) (lcIR 1 27 1 30) = false := by decide

/-- Sanity: the model of `shouldServe` reproduces all twelve rows of the
in-src `Test_resourceExpirationEvaluator_shouldServe`. -/
theorem shouldServe_test_rows :
    shouldServe { currentVersion := kMajorMinor 1 20 }
      { removed := some (kMajorMinor 1 20) } = false
    ∧ shouldServe { currentVersion := kMajorMinor 1 20, serveRemovedAPIsOneMoreRelease := true }
      { removed := some (kMajorMinor 1 20) } = true
    ∧ shouldServe { currentVersion := kMajorMinor 1 20, isAlpha := true }
      { removed := some (kMajorMinor 1 20) } = true
    ∧ shouldServe { currentVersion := kMajorMinor 1 20, isAlpha := true, strictRemovedHandlingInAlpha := true }
      { removed := some (kMajorMinor 1 20) } = false
    ∧ shouldServe { currentVersion := kMajorMinor 1 21, serveRemovedAPIsOneMoreRelease := true }
      { removed := some (kMajorMinor 1 20) } = false
    ∧ shouldServe { currentVersion := kMajorMinor 2 20, serveRemovedAPIsOneMoreRelease := true }
      { removed := some (kMajorMinor 1 20) } = false
    ∧ shouldServe { currentVersion := kMajorMinor 1 20 }
      { removed := some (kMajorMinor 1 21) } = true
    ∧ shouldServe { currentVersion := kMajorMinor 1 20 } {} = true
    ∧ shouldServe { currentVersion := kMajorMinor 1 20 }
      { introduced := some (kMajorMinor 1 20) } = true
    ∧ shouldServe { currentVersion := kMajorMinor 1 20 }
      { introduced := some (kMajorMinor 1 19) } = true
    ∧ shouldServe { currentVersion := kMajorMinor 1 20 }
      { introduced := some (kMajorMinor 1 21) } = false := by decide

/-- Sanity: the model of `RemoveDeletedKinds` reproduces the in-src
`Test_removeDeletedKinds` rows, including the subresource case and the
empty-version pruning. -/
theorem removeDeletedKinds_deleted_test_rows :
    removeDeletedKinds { currentVersion := kMajorMinor 1 20 } ["v2", "v1"]
      [("v1", [("twenty", { removed := some (kMajorMinor 1 20) }),
               ("twentyone", { removed := some (kMajorMinor 1 21) })])]
      = [("v1", [("twentyone", { removed := some (kMajorMinor 1 21) })])]
    ∧ removeDeletedKinds { currentVersion := kMajorMinor 1 20 } ["v2", "v1"]
      [("v1", [("twenty", { removed := some (kMajorMinor 1 20) }),
               ("twenty/scale", { removed := some (kMajorMinor 1 21) }),
               ("twentyone", { removed := some (kMajorMinor 1 21) })])]
      = [("v1", [("twentyone", { removed := some (kMajorMinor 1 21) })])]
    ∧ removeDeletedKinds { currentVersion := kMajorMinor 1 20 } ["v2", "v1"]
      [("v1", [("twenty", { removed := some (kMajorMinor 1 20) })]),
       ("v2", [("twenty", { removed := some (kMajorMinor 1 20) }),
               ("twentyone", { removed := some (kMajorMinor 1 21) })])]
      = [("v2", [("twentyone", { removed := some (kMajorMinor 1 21) })])] := by decide

/-- Sanity: the model of `RemoveDeletedKinds` reproduces the remaining
in-src `Test_removeFutureKinds` rows not used by the claims below. -/
theorem removeDeletedKinds_future_test_rows :
    removeDeletedKinds { currentVersion := kMajorMinor 1 20 }
      futurePriority futureMap = [("v1", [("resource1", lcI 1 20)])]
    ∧ removeDeletedKinds
        { currentVersion := kMajorMinor 1 22, emulationForwardCompatible := true }
        futurePriority futureMap =
      [("v1", [("resource1", lcI 1 20)]),
       ("v2beta2", [("resource1", lcIR 1 22 1 23), ("resource2", lcIR 1 22 1 23)]),
       ("v2", [("resource1", lcI 1 23), ("resource2", lcI 1 23)])]
    ∧ removeDeletedKinds
        { currentVersion := kMajorMinor 1 21, emulationForwardCompatible := true, resourceConfigs := [(("v2beta2", "resource2"), true)] }
        futurePriority futureMap =
      [("v1", [("resource1", lcI 1 20)]),
       ("v2beta1", [("resource1", lcIR 1 21 1 22)]),
       ("v2beta2", [("resource1", lcIR 1 22 1 23), ("resource2", lcIR 1 22 1 23)]),
       ("v2", [("resource1", lcI 1 23), ("resource2", lcI 1 23)])]
    ∧ removeDeletedKinds
        { currentVersion := kMajorMinor 1 22, emulationForwardCompatible := true, resourceConfigs := [(("v2beta2", "resource2"), false)] }
        futurePriority futureMap =
      [("v1", [("resource1", lcI 1 20)]),
       ("v2beta2", [("resource1", lcIR 1 22 1 23)]),
       ("v2", [("resource1", lcI 1 23)])] := by decide

/-- Sanity: the storage-encoding model reproduces representative rows of
the in-src `TestStorageVersionEmulation` (the GA-after-min-compatibility
row and the two hardcoded-encoding rows). -/
theorem storageEncodingFor_test_rows :
    storageEncodingFor (kMajorMinor 1 30) (kMajorMinor 1 29)
      [{ name := "v1", resourceLifecycle := lcI 1 30, groupLifecycle := lcI 1 25 },
       { name := "v1beta1", resourceLifecycle := lcI 1 27, groupLifecycle := lcI 1 26 },
       { name := "v1alpha1", resourceLifecycle := lcIR 1 26 1 28,
         groupLifecycle := lcIR 1 25 1 26 }] = .ok "v1beta1"
    ∧ storageEncodingFor (kMajorMinor 1 30) (kMajorMinor 1 29)
      [{ name := "v1beta1", resourceLifecycle := lcI 1 28, groupLifecycle := {} },
       { name := "v1alpha1", resourceLifecycle := lcI 1 26, groupLifecycle := {} }]
      = .ok "v1beta1"
    ∧ storageEncodingFor (kMajorMinor 1 30) (kMajorMinor 1 29)
      [{ name := "v1alpha1", resourceLifecycle := lcI 1 27, groupLifecycle := {} }]
      = .ok "v1alpha1" := by
  refine ⟨by rfl, by rfl, by rfl⟩

theorem storageEncodingFor_err_iff (e mc : KVersion) :
    ∀ cands : List StorageVersionCandidate,
      storageEncodingFor e mc cands = .error notCodableErr ↔
        ∀ c ∈ cands, codableBoth c e mc = false
  | [] => by simp [storageEncodingFor]
  | c :: rest => by
    by_cases h : codableBoth c e mc = true
    · simp [storageEncodingFor, h]
    · have hr := storageEncodingFor_err_iff e mc rest
      simp only [Bool.not_eq_true] at h
      simp [storageEncodingFor, h, hr]

theorem storageEncodingFor_ok_iff (e mc : KVersion) (n : String) :
    ∀ cands : List StorageVersionCandidate,
      storageEncodingFor e mc cands = .ok n ↔
        ∃ pre c post, cands = pre ++ c :: post ∧ c.name = n
          ∧ codableBoth c e mc = true
          ∧ ∀ d ∈ pre, codableBoth d e mc = false
  | [] => by
    simp only [storageEncodingFor]
    constructor
    · intro h
      exact absurd h (by simp)
    · rintro ⟨pre, c, post, hsplit, -⟩
      cases pre <;> simp_all
  | c :: rest => by
    by_cases h : codableBoth c e mc = true
    · simp only [storageEncodingFor, h, if_true]
      constructor
      · intro hok
        refine ⟨[], c, rest, rfl, ?_, h, by simp⟩
        cases hok
        rfl
      · rintro ⟨pre, c2, post, hsplit, hname, hcod, hpre⟩
        cases pre with
        | nil =>
          simp at hsplit
          rw [hsplit.1, hname]
        | cons p pre2 =>
          have hpf := hpre p (List.mem_cons_self p pre2)
          simp at hsplit
          rw [← hsplit.1] at hpf
          rw [hpf] at h
          exact absurd h (by simp)
    · simp only [Bool.not_eq_true] at h
      simp only [storageEncodingFor, h, Bool.false_eq_true, if_false]
      have hr := storageEncodingFor_ok_iff e mc n rest
      rw [hr]
      constructor
      · rintro ⟨pre, c2, post, hsplit, hname, hcod, hpre⟩
        refine ⟨c :: pre, c2, post, by simp [hsplit], hname, hcod, ?_⟩
        intro d hd
        cases List.mem_cons.mp hd with
        | inl hdc => rw [hdc]; exact h
        | inr hdp => exact hpre d hdp
      · rintro ⟨pre, c2, post, hsplit, hname, hcod, hpre⟩
        cases pre with
        | nil =>
          simp at hsplit
          rw [← hsplit.1] at hcod
          rw [hcod] at h
          cases h
        | cons p pre2 =>
          simp at hsplit
          refine ⟨pre2, c2, post, hsplit.2, hname, hcod, ?_⟩
          intro d hd
          exact hpre d (List.mem_cons_of_mem p hd)

theorem singletonIfNilIff (cond : Bool) (s : String) :
    ((if cond then [s] else []) = ([] : List String)) ↔ cond = false := by
  cases cond <;> simp

theorem effectiveVersionFor_none_iff (r : Registry) (x : String) :
    r.effectiveVersionFor x = none ↔
      (r.componentGlobals.find? (fun p => p.1 == x)).isNone = true := by
  unfold Registry.effectiveVersionFor
  cases h : r.componentGlobals.find? (fun p => p.1 == x) <;> simp [h]

theorem findDependentConfigured_eq_none (deps : List String) :
    ∀ config : List (String × String),
      findDependentConfigured deps config = none →
        ∀ p ∈ config, deps.contains p.1 = false
  | [], _, p, hp => absurd hp (List.not_mem_nil p)
  | q :: rest, h, p, hp => by
    simp only [findDependentConfigured] at h
    by_cases hq : deps.contains q.1 = true
    · rw [if_pos hq] at h
      cases h
    · simp only [Bool.not_eq_true] at hq
      have hneg : ¬(deps.contains q.1 = true) := by
        intro hcontra
        rw [hq] at hcontra
        exact Bool.false_ne_true hcontra
      rw [if_neg hneg] at h
      cases List.mem_cons.mp hp with
      | inl he => rw [he]; exact hq
      | inr hm => exact findDependentConfigured_eq_none deps rest h p hm

theorem exceptIsError_map {α β γ : Type} (f : β → γ) (x : Except α β) :
    exceptIsError (x.map f) = exceptIsError x := by
  cases x <;> rfl

theorem buildSetQueue_err (r : Registry) :
    ∀ config, (∃ p ∈ config, configEntryRejected r p) →
      exceptIsError (buildSetQueue r config) = true
  | [], h => by
    obtain ⟨p, hp, -⟩ := h
    exact absurd hp (List.not_mem_nil p)
  | q :: rest, h => by
    obtain ⟨qc, qs⟩ := q
    simp only [buildSetQueue]
    by_cases h1 : (r.componentGlobals.find? (fun p2 => p2.1 == qc)).isNone = true
    · rw [if_pos h1]
      rfl
    · rw [if_neg h1]
      cases hparse : parseVersion qs with
      | none => rfl
      | some v =>
        by_cases hpatch : (v.patch != 0) = true
        · simp only [hpatch, if_true]
          rfl
        · simp only [Bool.not_eq_true] at hpatch
          simp only [hpatch, Bool.false_eq_true, if_false]
          rw [exceptIsError_map]
          apply buildSetQueue_err r rest
          obtain ⟨p, hp, hbad⟩ := h
          cases List.mem_cons.mp hp with
          | inl he =>
            exfalso
            rw [he] at hbad
            rcases hbad with hb | hb | ⟨v2, hv2, hvp⟩
            · exact h1 hb
            · rw [hparse] at hb
              cases hb
            · rw [hparse] at hv2
              cases hv2
              rw [bne_eq_false_iff_eq] at hpatch
              exact hvp hpatch
          | inr hm => exact ⟨p, hm, hbad⟩

theorem getFullVersionConfig_err_of_bad (r : Registry)
    (config : List (String × String))
    (mapping : List (String × List (String × VersionMapping)))
    (h : ∃ p ∈ config, configEntryRejected r p) :
    exceptIsError (getFullVersionConfig r config mapping) = true := by
  unfold getFullVersionConfig
  cases hb : buildSetQueue r config with
  | error e => rfl
  | ok q =>
    have hh := buildSetQueue_err r config h
    rw [hb] at hh
    exact Bool.noConfusion hh

theorem resolveQueue_selfloop (c : String) (f : VersionMapping) (v : KVersion)
    (fuel : Nat) :
    exceptIsError
      (resolveQueue [(c, [(c, f)])] (fuel + 2) [] [⟨c, v⟩]) = true := by
  show exceptIsError
    (resolveQueue [(c, [(c, f)])] (fuel + 1 + 1) [] [⟨c, v⟩]) = true
  simp only [resolveQueue, List.find?_nil, Option.isSome_none, Bool.false_eq_true,
    if_false, List.find?_cons, beq_self_eq_true, if_pos, Option.map_some',
    Option.getD_some, pushTargets]
  cases hf : f v with
  | none => rfl
  | some w =>
    simp only [Except.map, List.nil_append]
    simp only [resolveQueue, List.find?_cons, beq_self_eq_true]
    rfl

/-- C1: storage-encoding selection scans the prioritized versions, most
preferred first, and returns the first version codable (per the lifecycle
availability rule pinned by the in-src `TestApiAvailable`) at both the
emulation version and the min compatibility version; when no version
qualifies it fails with the resource-not-codable error.  In particular a
resource with codable window 1.29 to 1.30 fails at emulationVersion 1.30
with minCompatibilityVersion 1.28, because 1.28 precedes the introduced
version. -/
theorem claim_C1_storage_encoding :
    (∀ (cands : List StorageVersionCandidate) (e mc : KVersion),
      (storageEncodingFor e mc cands = .error notCodableErr ↔
        ∀ c ∈ cands, codableBoth c e mc = false)
      ∧ (∀ n, storageEncodingFor e mc cands = .ok n ↔
          ∃ pre c post, cands = pre ++ c :: post ∧ c.name = n
            ∧ codableBoth c e mc = true
            ∧ ∀ d ∈ pre, codableBoth d e mc = false))
    ∧ storageEncodingFor (kMajorMinor 1 30) (kMajorMinor 1 28)
        [{ name := "v1",
           resourceLifecycle :=
             { introduced := some (kMajorMinor 1 29),
               removed := some (kMajorMinor 1 30) },
           groupLifecycle := {} }] = .error notCodableErr := by
  refine ⟨fun cands e mc => ⟨storageEncodingFor_err_iff e mc cands,
    fun n => storageEncodingFor_ok_iff e mc n cands⟩, by rfl⟩

/-- C2: the removal rule of `shouldServe`.  For every removed lifecycle
and current version, the resource is served exactly when the removal is
in the same major and strictly after the current minor, or, in the same
major at or before the current minor, one of the two exceptions applies:
the one-more-release deferral exactly in the removal release, or an alpha
build without strict removed handling.  A removal in a different major
expires the resource even with the deferral flag.  In particular a
resource removed in 1.20 is served at current 1.20 with the deferral flag
and not served at current 1.21. -/
theorem claim_C2_removal_rule :
    (∀ (e : ResourceExpirationEvaluator) (r : KVersion),
      shouldServeBasedOnRemoved e (some r) = true ↔
        removalServedSpec e.serveRemovedAPIsOneMoreRelease e.isAlpha
          e.strictRemovedHandlingInAlpha r e.currentVersion)
    ∧ shouldServe
        { currentVersion := kMajorMinor 1 20, serveRemovedAPIsOneMoreRelease := true }
        { introduced := some (kMajorMinor 1 20), removed := some (kMajorMinor 1 20) } = true
    ∧ shouldServe
        { currentVersion := kMajorMinor 1 21, serveRemovedAPIsOneMoreRelease := true }
        { introduced := some (kMajorMinor 1 20), removed := some (kMajorMinor 1 20) } = false := by
  refine ⟨?_, by decide, by decide⟩
  intro e r
  obtain ⟨cur, al, de, st, fc, rc⟩ := e
  simp only [shouldServeBasedOnRemoved, removalServedSpec]
  cases al <;> cases de <;> cases st <;>
    split_ifs with h1 h2 <;> simp_all [beq_iff_eq] <;> omega

/-- C3 counterexample: the claim as stated is false on the code as pinned
by the in-src `Test_removeFutureKinds` row at current version 1.21 with
`emulationForwardCompatible` set.  Both resources of version v2 are
introduced at 1.23, strictly after current 1.21 and at or before any
binary version, so the claim says both are additionally served; the code
serves only resource1 (which has a less preferred served version) and
drops resource2, as this evaluation shows. -/
theorem claim_C3_counterexample :
    removeDeletedKinds
        { currentVersion := kMajorMinor 1 21, emulationForwardCompatible := true }
        futurePriority futureMap =
      [("v1", [("resource1", lcI 1 20)]),
       ("v2beta1", [("resource1", lcIR 1 21 1 22)]),
       ("v2beta2", [("resource1", lcIR 1 22 1 23)]),
       ("v2", [("resource1", lcI 1 23)])] := by decide

/-- C3 as amended: a resource version introduced strictly after the
current version is not served by default (without the forward-compatible
flag and without overrides, the unintroduced-kinds pass keeps exactly the
already-introduced resources); with `emulationForwardCompatible` set, a
future-introduced resource version is additionally served exactly when a
strictly less preferred version of the same resource is served, as the
current-1.20 evaluation shows (v2 resource1 kept through served v1,
v2beta1 resource1 dropped); and explicit per-resource overrides take
precedence both ways, as the two override evaluations show. -/
theorem claim_C3_amended :
    (∀ (e : ResourceExpirationEvaluator) (ver : String) (en : List String)
        (rs : List (String × APILifecycle)),
      e.emulationForwardCompatible = false → e.resourceConfigs = [] →
      (introPassStep e ver en rs).2 =
        rs.filter (fun p => shouldServeBasedOnIntroduced e p.2.introduced))
    ∧ removeDeletedKinds
        { currentVersion := kMajorMinor 1 20, emulationForwardCompatible := true }
        futurePriority futureMap =
      [("v1", [("resource1", lcI 1 20)]), ("v2", [("resource1", lcI 1 23)])]
    ∧ removeDeletedKinds
        { currentVersion := kMajorMinor 1 20, resourceConfigs := [(("v2beta2", "resource2"), true)] }
        futurePriority futureMap =
      [("v1", [("resource1", lcI 1 20)]), ("v2beta2", [("resource2", lcIR 1 22 1 23)])]
    ∧ removeDeletedKinds
        { currentVersion := kMajorMinor 1 21, emulationForwardCompatible := true, resourceConfigs := [(("v2beta2", "resource1"), false)] }
        futurePriority futureMap =
      [("v1", [("resource1", lcI 1 20)]),
       ("v2beta1", [("resource1", lcIR 1 21 1 22)]),
       ("v2", [("resource1", lcI 1 23)])] := by
  refine ⟨?_, by decide, by decide, by decide⟩
  intro e ver en rs hfc hrc
  induction rs generalizing en with
  | nil => rfl
  | cons p rest ih =>
    simp only [introPassStep, lookupOverride, hrc, List.find?_nil, Option.map_none']
    by_cases hintro : shouldServeBasedOnIntroduced e p.2.introduced = true
    · simp [hintro, ih, List.filter_cons]
    · simp only [Bool.not_eq_true] at hintro
      simp [hintro, hfc, ih, List.filter_cons]

theorem claim_C3_amended_witness :
    (introPassStep { currentVersion := kMajorMinor 1 20 } "v2" []
        [("resource1", lcI 1 23)]).2 = [] := by
  rw [claim_C3_amended.1 { currentVersion := kMajorMinor 1 20 } "v2" []
    [("resource1", lcI 1 23)] rfl rfl]
  decide

/-- C4: for every effective-version state and every version v, the
compatibility-package `SetEmulationVersion(v)` stores v normalized to
major.minor as the emulation version and, as a side effect, stores the
maximum of v minus one minor at major.minor and the min-compatibility
floor as the min-compatibility version, leaving the binary version
untouched. -/
theorem claim_C4_set_emulation_version :
    ∀ (m : EffectiveVersion) (v : KVersion),
      (m.setEmulationVersion (some v)).emulationVersion
          = some (kMajorMinor v.major v.minor)
        ∧ (m.setEmulationVersion (some v)).minCompatibilityVersion
          = specDefaultMinCompat v m.minCompatibilityVersionFloor
        ∧ (m.setEmulationVersion (some v)).binaryVersion = m.binaryVersion := by
  intro m v
  refine ⟨rfl, ?_, rfl⟩
  simp only [EffectiveVersion.setEmulationVersion, specDefaultMinCompat,
    optSubtractMinor, Option.map_some, majorMinor, kSubtractMinor]
  cases hf : m.minCompatibilityVersionFloor with
  | none => simp [vLessThan]
  | some f => simp [vLessThan]

/-- C5: for every effective-version state whose binary, emulation and
min-compatibility versions are all set (the latter two at major.minor, as
every mutation path stores them, and the floors likewise when present),
`Validate` returns no error exactly when the emulation version lies
between the emulation floor and the patch-zeroed binary version and the
min-compatibility version lies between its floor and the emulation
version, all comparisons at major.minor. -/
theorem claim_C5_validate_iff :
    ∀ (m : EffectiveVersion) (b e c : KVersion),
      m.binaryVersion = some b → m.emulationVersion = some e →
      m.minCompatibilityVersion = some c →
      e.patch = 0 → c.patch = 0 →
      patchZeroOpt m.emulationVersionFloor →
      patchZeroOpt m.minCompatibilityVersionFloor →
      (m.validate = [] ↔
        (floorLeMM m.emulationVersionFloor e
          ∧ mmLe e (kMajorMinor b.major b.minor)
          ∧ floorLeMM m.minCompatibilityVersionFloor c
          ∧ mmLe c e)) := by
  intro m b e c hb he hc hep hcp hef hcf
  simp only [EffectiveVersion.validate, hb, he, hc, optWithPatch0]
  rw [List.append_eq_nil, singletonIfNilIff, singletonIfNilIff]
  cases hE : m.emulationVersionFloor with
  | none =>
    cases hC : m.minCompatibilityVersionFloor with
    | none =>
      simp [vGreaterThan, vLessThan, kLtB, kMajorMinor, mmLe, floorLeMM, hep, hcp]
      omega
    | some fc2 =>
      rw [hC] at hcf
      simp only [patchZeroOpt] at hcf
      simp [vGreaterThan, vLessThan, kLtB, kMajorMinor, mmLe, floorLeMM, hep, hcp, hcf]
      omega
  | some fe2 =>
    rw [hE] at hef
    simp only [patchZeroOpt] at hef
    cases hC : m.minCompatibilityVersionFloor with
    | none =>
      simp [vGreaterThan, vLessThan, kLtB, kMajorMinor, mmLe, floorLeMM, hep, hcp, hef]
      omega
    | some fc2 =>
      rw [hC] at hcf
      simp only [patchZeroOpt] at hcf
      simp [vGreaterThan, vLessThan, kLtB, kMajorMinor, mmLe, floorLeMM, hep, hcp, hef, hcf]
      omega

theorem claim_C5_validate_iff_witness :
    EffectiveVersion.validate
      { binaryVersion := some { major := 1, minor := 30, patch := 2 },
        emulationVersion := some (kMajorMinor 1 30),
        minCompatibilityVersion := some (kMajorMinor 1 29),
        emulationVersionFloor := some (kMajorMinor 1 29),
        minCompatibilityVersionFloor := some (kMajorMinor 1 28) } = [] := by
  refine (claim_C5_validate_iff _ _ _ _ rfl rfl rfl rfl rfl
      (by simp [patchZeroOpt, kMajorMinor]) (by simp [patchZeroOpt, kMajorMinor])).mpr
    ⟨?_, ?_, ?_, ?_⟩ <;> simp [floorLeMM, mmLe, kMajorMinor]

/-- C6: single-dependency invariant of the registry.
`SetEmulationVersionMapping(from, to, f)` with a non-nil f errors whenever
either endpoint is unregistered or the target already has an incoming
emulation-version mapping edge; and `Set` errors whenever the
operator-supplied emulation-version configuration names a component with
an incoming mapping edge. -/
theorem claim_C6_single_dependency :
    (∀ (r : Registry) (frm toC : String) (f : VersionMapping),
      (r.effectiveVersionFor frm = none ∨ r.effectiveVersionFor toC = none
        ∨ r.componentsWithDependentEmulationVersion.contains toC = true) →
      exceptIsError (setEmulationVersionMapping r frm toC (some f)) = true)
    ∧ (∀ (r : Registry) (comp : String),
        (∃ s, (comp, s) ∈ r.emulationVersionConfig) →
        r.componentsWithDependentEmulationVersion.contains comp = true →
        (registrySetEmulation r).2.isSome = true) := by
  constructor
  · intro r frm toC f hdisj
    simp only [setEmulationVersionMapping]
    by_cases h1 : (r.componentGlobals.find? (fun p => p.1 == frm)).isNone = true
    · simp [h1, exceptIsError]
    · simp only [Bool.not_eq_true] at h1
      by_cases h2 : (r.componentGlobals.find? (fun p => p.1 == toC)).isNone = true
      · simp [h1, h2, exceptIsError]
      · simp only [Bool.not_eq_true] at h2
        have hcont : r.componentsWithDependentEmulationVersion.contains toC = true := by
          rcases hdisj with h | h | h
          · rw [effectiveVersionFor_none_iff] at h
            rw [h] at h1
            cases h1
          · rw [effectiveVersionFor_none_iff] at h
            rw [h] at h2
            cases h2
          · exact h
        have hn1 : ¬((r.componentGlobals.find? (fun p => p.1 == frm)).isNone = true) := by
          simp [h1]
        have hn2 : ¬((r.componentGlobals.find? (fun p => p.1 == toC)).isNone = true) := by
          simp [h2]
        rw [if_neg hn1, if_neg hn2, if_pos hcont]
        rfl
  · intro r comp hs hc
    unfold registrySetEmulation
    cases hd : findDependentConfigured r.componentsWithDependentEmulationVersion
        r.emulationVersionConfig with
    | some x => rfl
    | none =>
      exfalso
      obtain ⟨s, hmem⟩ := hs
      have hfd := findDependentConfigured_eq_none _ _ hd (comp, s) hmem
      rw [hc] at hfd
      cases hfd

theorem claim_C6_single_dependency_witness :
    exceptIsError (setEmulationVersionMapping regW "zzz" "a" (some (fun v => some v))) = true
    ∧ (registrySetEmulation regW).2.isSome = true :=
  ⟨claim_C6_single_dependency.1 regW "zzz" "a" (fun v => some v) (Or.inl (by decide)),
   claim_C6_single_dependency.2 regW "b" ⟨"1.30", by decide⟩ (by decide)⟩

/-- C7 counterexample: the claim as stated is false on the code.  The
configured string 1.30.0 is a full semantic version of three components,
not of major.minor form, yet the emulation-version resolution of `Set`
accepts it without error because the in-src check only rejects a nonzero
patch component. -/
theorem claim_C7_counterexample :
    (splitDots ("1.30.0".toList)).length = 3
    ∧ parseVersion "1.30.0" = some { major := 1, minor := 30, patch := 0 }
    ∧ (registrySetEmulation regSemver).2 = none := ⟨by decide, by decide, by decide⟩

/-- C7 as amended: the resolution of `Set` errors whenever some
configured entry names an unregistered component, carries a string that
fails to parse, or parses with a nonzero patch component (a full semantic
version with zero patch such as 1.30.0 is accepted); and on a registered
component whose configured version feeds a self-loop mapping edge, the
resolution errors, through the nil-mapping-result error when the mapping
function returns nil and through the assigned-more-than-once error
otherwise. -/
theorem claim_C7_amended :
    (∀ r : Registry,
      (∃ p ∈ r.emulationVersionConfig, configEntryRejected r p) →
      (registrySetEmulation r).2.isSome = true)
    ∧ (∀ (r : Registry) (c s : String) (v : KVersion) (f : VersionMapping)
        (g : String × EffectiveVersion),
        r.emulationVersionConfig = [(c, s)] →
        r.emulationVersionMapping = [(c, [(c, f)])] →
        r.componentGlobals.find? (fun q => q.1 == c) = some g →
        parseVersion s = some v → v.patch = 0 →
        (registrySetEmulation r).2.isSome = true) := by
  constructor
  · intro r h
    unfold registrySetEmulation
    cases hd : findDependentConfigured r.componentsWithDependentEmulationVersion
        r.emulationVersionConfig with
    | some x => rfl
    | none =>
      have herr := getFullVersionConfig_err_of_bad r r.emulationVersionConfig
        r.emulationVersionMapping h
      cases hg : getFullVersionConfig r r.emulationVersionConfig
          r.emulationVersionMapping with
      | error e => rfl
      | ok asg =>
        rw [hg] at herr
        exact Bool.noConfusion herr
  · intro r c s v f g hcfg hmap hfind hparse hpatch
    have hge : exceptIsError (getFullVersionConfig r r.emulationVersionConfig
        r.emulationVersionMapping) = true := by
      rw [hcfg, hmap]
      unfold getFullVersionConfig
      have hq : buildSetQueue r [(c, s)] = .ok [⟨c, v⟩] := by
        simp only [buildSetQueue, hfind, Option.isNone_some, Bool.false_eq_true,
          if_false, hparse, hpatch, bne_self_eq_false]
        rfl
      rw [hq]
      show exceptIsError (resolveQueue [(c, [(c, f)])]
        (([(⟨c, v⟩ : ComponentVersion)]).length + edgeCount [(c, [(c, f)])] + 1)
        [] [⟨c, v⟩]) = true
      have hfuel : ([(⟨c, v⟩ : ComponentVersion)]).length
          + edgeCount [(c, [(c, f)])] + 1 = 1 + 2 := by
        simp [edgeCount]
      rw [hfuel]
      exact resolveQueue_selfloop c f v 1
    unfold registrySetEmulation
    cases hd : findDependentConfigured r.componentsWithDependentEmulationVersion
        r.emulationVersionConfig with
    | some x => rfl
    | none =>
      cases hg : getFullVersionConfig r r.emulationVersionConfig
          r.emulationVersionMapping with
      | error e => rfl
      | ok asg =>
        rw [hg] at hge
        exact Bool.noConfusion hge

theorem claim_C7_amended_witness :
    (registrySetEmulation regBadCfg).2.isSome = true
    ∧ (registrySetEmulation regLoop).2.isSome = true :=
  ⟨claim_C7_amended.1 regBadCfg
      ⟨("a", "1.30.5"), by decide,
        Or.inr (Or.inr ⟨{ major := 1, minor := 30, patch := 5 }, by decide, by decide⟩)⟩,
   claim_C7_amended.2 regLoop "a" "1.30" (kMajorMinor 1 30) (fun w => some w)
      ("a", newEffectiveVersion (kMajorMinor 1 31)) rfl rfl (by decide) (by decide) rfl⟩

/-- C8: the builder `WithMinCompatibilityVersionFloor` of the
compatibility package panics (an immediate fatal configuration error,
modelled as the error branch) exactly when the requested floor is
strictly greater than the configured emulation floor, storing nothing on
that path; otherwise it stores the floor. -/
theorem claim_C8_floor_ordering :
    ∀ (m : EffectiveVersion) (f fe : KVersion),
      m.emulationVersionFloor = some fe →
      ((m.withMinCompatibilityVersionFloor (some f) = .error floorOrderingPanicMsg ↔
          kLtB fe f = true)
        ∧ (kLtB fe f = false →
            m.withMinCompatibilityVersionFloor (some f) =
              .ok { m with minCompatibilityVersionFloor := some f })) := by
  intro m f fe hfe
  simp only [EffectiveVersion.withMinCompatibilityVersionFloor, hfe, vGreaterThan]
  constructor
  · by_cases h : kLtB fe f = true
    · simp [h]
    · simp only [Bool.not_eq_true] at h
      simp [h]
  · intro h
    simp [h]

theorem claim_C8_floor_ordering_witness :
    EffectiveVersion.withMinCompatibilityVersionFloor
      { emulationVersionFloor := some (kMajorMinor 1 31) }
      (some (kMajorMinor 1 32)) = .error floorOrderingPanicMsg :=
  ((claim_C8_floor_ordering _ (kMajorMinor 1 32) (kMajorMinor 1 31) rfl).1).mpr (by decide)

/-- C9: `Validate` is a total function of the state that returns at most
the two range errors and never anything else, and it is safe on the fully
unset state produced by `NewEffectiveVersionFromString` of the empty
string, where the nil-safe comparisons of the Version primitive make both
checks pass vacuously.  In this pure embedding `Validate` takes the state
and returns only the error list, reflecting that the source performs
atomic loads and never mutates. -/
theorem claim_C9_validate_total :
    (∀ m : EffectiveVersion, m.validate.length ≤ 2)
    ∧ newEffectiveVersionFromString "" = some {}
    ∧ EffectiveVersion.validate {} = [] := by
  refine ⟨?_, by rfl, by rfl⟩
  intro m
  have hsing : ∀ (c : Bool) (s : String), (if c then [s] else []).length ≤ 1 := by
    intro c s
    cases c <;> simp
  simp only [EffectiveVersion.validate, List.length_append]
  exact Nat.add_le_add (hsing _ _) (hsing _ _)

/-- C10: atomicity of the emulation-version resolution phase of `Set`.
Whenever the phase reports an error, whether from the dependent-component
pre-check or from the assignment resolution, the registered component
globals are exactly those of the entry state: `SetEmulationVersion` is
applied only after the whole assignment resolves without error. -/
theorem claim_C10_set_atomic_on_error :
    ∀ r : Registry, (registrySetEmulation r).2.isSome = true →
      (registrySetEmulation r).1.componentGlobals = r.componentGlobals := by
  intro r
  unfold registrySetEmulation
  cases hd : findDependentConfigured r.componentsWithDependentEmulationVersion
      r.emulationVersionConfig with
  | some x => intro _; rfl
  | none =>
    cases hg : getFullVersionConfig r r.emulationVersionConfig
        r.emulationVersionMapping with
    | error e => intro _; rfl
    | ok asg => intro h; exact Bool.noConfusion h

theorem claim_C10_set_atomic_on_error_witness :
    (registrySetEmulation regErr).2.isSome = true
    ∧ (registrySetEmulation regErr).1.componentGlobals = regErr.componentGlobals :=
  ⟨by decide, claim_C10_set_atomic_on_error regErr (by decide)⟩
